import Mathlib

/-
  Shallow embedding of src/RUBY-meeting.py (RUBY meeting assistant).

  The pipeline logic under verification: the keyword query router
  (is_coimbatore_query, line 33), the chat-history persistence layer
  (load_chat_history / save_chat_history / clear_chat_history, lines 45-65),
  and the per-turn callback (on_click_callback, lines 105-125) together with
  the New Chat button handler (lines 128-130).

  Modelling conventions:
  - Python values that can appear as a message payload are modelled by the
    PyVal type: a string, a dict (flattened to string keys and values, which
    is all the coercion logic inspects), or an opaque retrieved-document
    object (langchain Document) that is neither a string nor a dict instance.
  - The persisted JSON file is modelled by Option FileContent: None when the
    file is absent, Some wellFormed when it holds a JSON array of
    origin/message string records, Some malformed otherwise.  json.load and
    json.dump of string records are modelled as inverse; json.load of a
    malformed file raises (PersistErr), json.dump of a non-serializable
    payload raises (SerErr), as in Python.
  - Exceptions are modelled with Except; an imperative function that can
    raise after mutating returns the state as of the raise point
    (TurnResult carries the session state in every outcome).
  - Python str.lower() is modelled character-wise with Char.toLower.
-/

namespace Ruby

/-- A dynamically typed Python value that can occur in the `message` field of
a history entry: a plain string, a dict (as assumed dict-like by
save_chat_history line 55), or an opaque retrieved-document object
(langchain Document), which is neither a string nor a dict instance. -/
inductive PyVal where
  | str : String → PyVal
  | dict : List (String × String) → PyVal
  | doc : String → PyVal
  deriving Repr, DecidableEq

/-- One history entry, the Python dict with keys origin and message built at
lines 121-122 (mirroring the Message dataclass of lines 39-42). -/
structure Msg where
  origin : String
  message : PyVal
  deriving Repr, DecidableEq

/-- Single-quote wrapping used by Python repr of strings inside a dict. -/
def sq (s : String) : String :=
  String.singleton (Char.ofNat 39) ++ s ++ String.singleton (Char.ofNat 39)

/-- Python str() applied to a payload: identity on strings, the
"\x7b...\x7d" rendering on dicts, the Document repr on document objects. -/
def pyStr : PyVal → String
  | .str s => s
  | .dict kvs =>
      "\x7b" ++ String.intercalate ", " (kvs.map fun kv => sq kv.1 ++ ": " ++ sq kv.2) ++ "\x7d"
  | .doc c => "Document(page_content=" ++ sq c ++ ")"

/-- Whether the character list h begins with the character list n. -/
def listStarts : List Char → List Char → Bool
  | [], _ => true
  | _ :: _, [] => false
  | a :: as, b :: bs => a == b && listStarts as bs

/-- Python substring containment (the `in` operator on str, via char lists). -/
def containsSub (n : List Char) : List Char → Bool
  | [] => listStarts n []
  | c :: cs => listStarts n (c :: cs) || containsSub n cs

/-- Source line 34: `return "meeting" in query.lower()`. -/
def is_coimbatore_query (query : String) : Bool :=
  containsSub "meeting".toList (query.toList.map Char.toLower)

/-- The Query Router decision of the spec (section 4.3). -/
inductive Route where
  | Grounded
  | General
  deriving Repr, DecidableEq

/-- The routing performed by the `if is_coimbatore_query(user_input)` branch
at line 113: the grounded retrieval path or the general path. -/
def classify (q : String) : Route :=
  if is_coimbatore_query q then .Grounded else .General

/-- The spec-side reading of "the trigger keyword occurs as a
case-insensitive substring of q": some contiguous segment of q lowercases
to the keyword. -/
def OccursCaseInsensitive (pat : String) (q : String) : Prop :=
  ∃ l m r, q.toList = l ++ m ++ r ∧ m.map Char.toLower = pat.toList

/-- One origin/message record of the persisted JSON array (section 6 of the
spec: "one serializable array of origin, text records"). -/
structure SavedMsg where
  origin : String
  message : String
  deriving Repr, DecidableEq

/-- Contents of chat_history.json when the file exists: either a well-formed
JSON array of records, or bytes that json.load fails to parse. -/
inductive FileContent where
  | wellFormed : List SavedMsg → FileContent
  | malformed : FileContent
  deriving Repr, DecidableEq

/-- The exception json.load raises on malformed input (ValueError). -/
inductive PersistErr where
  | parse
  deriving Repr, DecidableEq

/-- The exception json.dump raises on a non-serializable payload
(TypeError). -/
inductive SerErr where
  | notSerializable
  deriving Repr, DecidableEq

/-- The failure of the opaque text-completion capability (spec section 7,
GenerationError). -/
inductive GenErr where
  | failed
  deriving Repr, DecidableEq

/-- Source lines 45-49: return the parsed file if it exists, else the empty
list.  There is no exception handler, so a parse failure propagates. -/
def load_chat_history : Option FileContent → Except PersistErr (List Msg)
  | none => .ok []
  | some (.wellFormed recs) => .ok (recs.map fun r => ⟨r.origin, .str r.message⟩)
  | some .malformed => .error .parse

/-- Source lines 55-56: `msg['message'] = str(msg['message'])` when the
payload is a dict instance; any other payload is left as is (a Document is
not a dict instance, so it is not converted). -/
def coerce_msg (m : Msg) : Msg :=
  match m.message with
  | .dict kvs => ⟨m.origin, .str (pyStr (.dict kvs))⟩
  | _ => m

/-- json.dump serialization of one record: succeeds exactly when the payload
is a plain string (origins always are). -/
def to_record (m : Msg) : Option SavedMsg :=
  match m.message with
  | .str s => some ⟨m.origin, s⟩
  | _ => none

/-- json.dump traversal over the list: all records, or failure at the first
non-serializable payload. -/
def dump_records : List Msg → Option (List SavedMsg)
  | [] => some []
  | m :: ms =>
      match to_record m, dump_records ms with
      | some r, some rs => some (r :: rs)
      | _, _ => none

/-- Source lines 52-60: mutate each dict payload to its str() in place (the
caller's list holds the same mutated objects), then json.dump the list.
Returns the in-memory history after the mutation together with the dump
outcome. -/
def save_chat_history (history : List Msg) : List Msg × Except SerErr (List SavedMsg) :=
  let h2 := history.map coerce_msg
  match dump_records h2 with
  | some recs => (h2, .ok recs)
  | none => (h2, .error .notSerializable)

/-- Source lines 63-65: remove the file if it exists, do nothing otherwise. -/
def clear_chat_history : Option FileContent → Option FileContent
  | some _ => none
  | none => none

/-- The f-string of line 112 applied to one history entry. -/
def format_msg (m : Msg) : String := m.origin ++ ": " ++ pyStr m.message

/-- Python "\n".join on a list of strings. -/
def join_newline : List String → String
  | [] => ""
  | [a] => a
  | a :: b :: rest => a ++ "\n" ++ join_newline (b :: rest)

/-- Source line 112: the flat conversation context string. -/
def context_string (h : List Msg) : String :=
  join_newline (h.map format_msg)

/-- Source line 114: the string bound to the invoke dict's "input" key on the
grounded path, i.e. `context + "\n" + user_input`.  create_retrieval_chain
feeds this value to the retriever, so it is the retrieval input. -/
def retrieval_input (h : List Msg) (q : String) : String :=
  context_string h ++ "\n" ++ q

/-- The value substituted for the input placeholder of the grounded
ChatPromptTemplate (line 86): create_retrieval_chain forwards the invoke
dict's "input" value unchanged to the prompt, so it is the same
context-prefixed string passed at line 114. -/
def grounded_prompt_input (h : List Msg) (q : String) : String :=
  retrieval_input h q

/-- The spec's description of the context (section 4.4 step 1): each message
formatted as origin colon text, joined line by line in chronological
order.  Written from the spec's words, to be compared with context_string. -/
def spec_context : List Msg → String
  | [] => ""
  | [m] => format_msg m
  | m :: m2 :: rest => format_msg m ++ "\n" ++ spec_context (m2 :: rest)

/-- The session state the callback manipulates: the in-memory history
(st.session_state.history) and the persisted file. -/
structure St where
  history : List Msg
  file : Option FileContent
  deriving Repr, DecidableEq

/-- Outcome of one submission, carrying the session state as of the moment
control leaves on_click_callback (also when an exception propagates):
genFailure when the chain invoke raises (line 114 or 117), serFailure when
json.dump raises inside save_chat_history (the open-for-write has already
truncated the file), ok with the answer otherwise. -/
inductive TurnResult where
  | genFailure : GenErr → St → TurnResult
  | serFailure : St → TurnResult
  | ok : St → String → TurnResult
  deriving Repr, DecidableEq

/-- Source lines 113-118: route the combined context-and-query string to the
grounded retrieval chain when is_coimbatore_query holds, to the general
chain otherwise, yielding the answer string or the invoke failure. -/
def run_chain (ground general : String → Except GenErr String)
    (q : String) (s : St) : Except GenErr String :=
  if is_coimbatore_query q then ground (retrieval_input s.history q)
  else general (retrieval_input s.history q)

/-- Source lines 121-125: append the human and ai messages to the session
history, then persist through save_chat_history (which coerces in place;
a json.dump failure leaves the truncated file behind). -/
def finish_turn (s : St) (q answer : String) : TurnResult :=
  let h1 := s.history ++ [Msg.mk "human" (PyVal.str q), Msg.mk "ai" (PyVal.str answer)]
  match save_chat_history h1 with
  | (h2, .ok recs) => .ok ⟨h2, some (.wellFormed recs)⟩ answer
  | (h2, .error _) => .serFailure ⟨h2, some .malformed⟩

/-- Source lines 105-125: build the context, invoke the selected chain, and
on success append the turn's messages and persist.  An invoke exception
propagates before any mutation. -/
def on_click_callback (ground general : String → Except GenErr String)
    (q : String) (s : St) : TurnResult :=
  match run_chain ground general q s with
  | .error e => .genFailure e s
  | .ok answer => finish_turn s q answer

/-- Source lines 128-130: the New Chat button empties the in-memory history
and deletes the persisted file. -/
def new_chat (s : St) : St :=
  ⟨[], clear_chat_history s.file⟩

/-- Source lines 68-70: rehydrate the session history from the file at
startup (a parse failure propagates and aborts the script run). -/
def init_session_state (f : Option FileContent) : Except PersistErr St :=
  (load_chat_history f).map fun h => ⟨h, f⟩

/-- Whether a payload is a plain string. -/
def payload_is_str (m : Msg) : Bool :=
  match m.message with
  | .str _ => true
  | _ => false

/-- Whether a payload is a dict instance (what line 55 tests). -/
def payload_is_dict (m : Msg) : Bool :=
  match m.message with
  | .dict _ => true
  | _ => false

/-- The origin enumeration invariant of one message (spec section 3): the
code writes the literals "human" and "ai", the spec's names for the
human and assistant origins. -/
def OriginOK (o : String) : Prop := o = "human" ∨ o = "ai"

/-- Every message of the history satisfies the origin invariant. -/
def HistoryOK (h : List Msg) : Prop := ∀ m ∈ h, OriginOK m.origin

/-- Every record of a well-formed persisted file satisfies the origin
invariant (vacuous for absent or malformed files). -/
def FileOK : Option FileContent → Prop
  | some (.wellFormed recs) => ∀ r ∈ recs, OriginOK r.origin
  | _ => True

/-- The origin invariant over the whole session state. -/
def StOK (s : St) : Prop := HistoryOK s.history ∧ FileOK s.file

/-- The origin invariant over a turn outcome (whatever state the turn leaves
behind satisfies it). -/
def TurnOK : TurnResult → Prop
  | .genFailure _ s => StOK s
  | .serFailure s => StOK s
  | .ok s _ => StOK s

/-- listStarts decides the existence of a completing suffix. -/
theorem listStarts_iff : ∀ (n h : List Char), listStarts n h = true ↔ ∃ t, h = n ++ t
  | [], h => by simp [listStarts]
  | _ :: _, [] => by simp [listStarts]
  | a :: as, b :: bs => by
      simp only [listStarts, Bool.and_eq_true, beq_iff_eq, listStarts_iff as bs,
        List.cons_append, List.cons.injEq]
      constructor
      · rintro ⟨rfl, t, rfl⟩
        exact ⟨t, rfl, rfl⟩
      · rintro ⟨t, rfl, rfl⟩
        exact ⟨rfl, t, rfl⟩

/-- containsSub decides the existence of a decomposition around the needle. -/
theorem containsSub_iff : ∀ (n h : List Char), containsSub n h = true ↔ ∃ s t, h = s ++ n ++ t
  | n, [] => by
      simp only [containsSub, listStarts_iff]
      constructor
      · rintro ⟨t, ht⟩
        exact ⟨[], t, by simpa using ht⟩
      · rintro ⟨s, t, hst⟩
        have h0 := hst.symm
        simp only [List.append_eq_nil] at h0
        exact ⟨[], by simp [h0.1.2]⟩
  | n, c :: cs => by
      simp only [containsSub, Bool.or_eq_true, listStarts_iff, containsSub_iff n cs]
      constructor
      · rintro (⟨t, ht⟩ | ⟨s, t, hst⟩)
        · exact ⟨[], t, by simpa using ht⟩
        · exact ⟨c :: s, t, by simp [hst]⟩
      · rintro ⟨s, t, hst⟩
        cases s with
        | nil => exact Or.inl ⟨t, by simpa using hst⟩
        | cons d ds =>
            right
            refine ⟨ds, t, ?_⟩
            simp only [List.cons_append, List.cons.injEq] at hst
            exact hst.2

/-- The boolean router test holds exactly when some segment of the query
lowercases to the keyword. -/
theorem is_coimbatore_query_iff (q : String) :
    is_coimbatore_query q = true ↔ OccursCaseInsensitive "meeting" q := by
  unfold is_coimbatore_query OccursCaseInsensitive
  rw [containsSub_iff]
  constructor
  · rintro ⟨s, t, hst⟩
    rcases List.map_eq_append_iff.mp hst with ⟨a, b, hab, ha, hb⟩
    rcases List.map_eq_append_iff.mp ha with ⟨a1, m, ham, ha1, hm⟩
    exact ⟨a1, m, b, by rw [hab, ham], hm⟩
  · rintro ⟨l, m, r, hq, hm⟩
    exact ⟨l.map Char.toLower, r.map Char.toLower, by rw [hq]; simp [hm]⟩

/-- The code's intercalation of the history agrees with the spec's recursive
description of the chronological join. -/
theorem context_string_eq_spec_context : ∀ h, context_string h = spec_context h
  | [] => rfl
  | [_] => rfl
  | m :: m2 :: rest => by
      have ih := context_string_eq_spec_context (m2 :: rest)
      simp only [context_string, List.map_cons, join_newline, spec_context] at *
      rw [ih]

/-- C1: classify returns Grounded exactly when the trigger keyword "meeting"
occurs as a case-insensitive substring of the query, and General otherwise.
classify is a plain function of the query string, hence pure and
deterministic. -/
theorem classify_grounded_iff_keyword (q : String) :
    (classify q = Route.Grounded ↔ OccursCaseInsensitive "meeting" q) ∧
    (classify q = Route.General ↔ ¬ OccursCaseInsensitive "meeting" q) := by
  have key := is_coimbatore_query_iff q
  cases hb : is_coimbatore_query q with
  | true =>
      rw [hb] at key
      have hocc := key.mp rfl
      simp [classify, hb, hocc]
  | false =>
      rw [hb] at key
      simp only [Bool.false_eq_true, false_iff] at key
      simp [classify, hb, key]

/-- C2 counterexample: with an empty history and the query "hi", the value
substituted for the grounded prompt's input placeholder is the
context-prefixed string, which differs from the raw query. -/
theorem grounded_input_not_raw_query :
    grounded_prompt_input [] "hi" ≠ "hi" := by decide

/-- C2 amended: the context string is the history entries formatted as
origin colon text joined chronologically, the retrieval input is context,
newline, query, and the grounded prompt's input placeholder receives that
same context-prefixed string (not the raw query). -/
theorem grounded_turn_strings (h : List Msg) (q : String) :
    context_string h = spec_context h ∧
    retrieval_input h q = context_string h ++ "\n" ++ q ∧
    grounded_prompt_input h q = retrieval_input h q :=
  ⟨context_string_eq_spec_context h, rfl, rfl⟩

/-- C3 counterexample: on a malformed history file, load_chat_history
propagates the parse error instead of degrading to the empty history. -/
theorem load_malformed_raises :
    load_chat_history (some FileContent.malformed) = Except.error PersistErr.parse := rfl

/-- C3 amended: load returns the empty history when the file is absent and
the parsed records when the file is well-formed, but a read or parse
failure propagates to the caller (the code installs no handler). -/
theorem load_behavior :
    load_chat_history none = Except.ok [] ∧
    (∀ recs, load_chat_history (some (FileContent.wellFormed recs)) =
        Except.ok (recs.map fun r => Msg.mk r.origin (PyVal.str r.message))) ∧
    load_chat_history (some FileContent.malformed) = Except.error PersistErr.parse :=
  ⟨rfl, fun _ => rfl, rfl⟩

/-- Coercion never changes the origin field. -/
theorem coerce_msg_origin (m : Msg) : (coerce_msg m).origin = m.origin := by
  cases m with
  | mk o p => cases p <;> rfl

/-- Coercion is the identity on string payloads. -/
theorem coerce_msg_of_str (m : Msg) (hm : payload_is_str m = true) : coerce_msg m = m := by
  cases m with
  | mk o p =>
      cases p with
      | str s => rfl
      | dict kvs => simp [payload_is_str] at hm
      | doc c => simp [payload_is_str] at hm

/-- A coerced payload is never a dict instance. -/
theorem coerce_msg_not_dict (m : Msg) : payload_is_dict (coerce_msg m) = false := by
  cases m with
  | mk o p => cases p <;> rfl

/-- Explicit formula for save_chat_history. -/
theorem save_chat_history_eq (h : List Msg) :
    save_chat_history h = (h.map coerce_msg,
      match dump_records (h.map coerce_msg) with
      | some recs => Except.ok recs
      | none => Except.error SerErr.notSerializable) := by
  unfold save_chat_history
  cases hd : dump_records (h.map coerce_msg) <;> simp [hd]

/-- On an all-string history, the dump succeeds and the records mirror the
messages one for one. -/
theorem dump_records_of_str : ∀ h : List Msg, (∀ m ∈ h, payload_is_str m = true) →
    ∃ recs, dump_records h = some recs ∧
      recs.map (fun r => Msg.mk r.origin (PyVal.str r.message)) = h
  | [], _ => ⟨[], rfl, rfl⟩
  | m :: ms, hall => by
      obtain ⟨o, p⟩ := m
      cases p with
      | str s =>
          obtain ⟨recs, hr, hmap⟩ :=
            dump_records_of_str ms (fun x hx => hall x (List.mem_cons_of_mem _ hx))
          exact ⟨⟨o, s⟩ :: recs, by simp [dump_records, to_record, hr], by simp [hmap]⟩
      | dict kvs =>
          have hhd := hall _ (List.mem_cons_self _ _)
          simp [payload_is_str] at hhd
      | doc c =>
          have hhd := hall _ (List.mem_cons_self _ _)
          simp [payload_is_str] at hhd

/-- Coercion is the identity on an all-string history. -/
theorem map_coerce_of_str (h : List Msg) (hs : ∀ m ∈ h, payload_is_str m = true) :
    h.map coerce_msg = h := by
  induction h with
  | nil => rfl
  | cons m ms ih =>
      simp only [List.map_cons]
      rw [coerce_msg_of_str m (hs m (List.mem_cons_self m ms)),
        ih (fun x hx => hs x (List.mem_cons_of_mem _ hx))]

/-- Every record produced by the dump takes its origin from some message of
the dumped history. -/
theorem dump_records_origins : ∀ (h : List Msg) (recs : List SavedMsg),
    dump_records h = some recs → ∀ r ∈ recs, ∃ m ∈ h, r.origin = m.origin
  | [], recs, hr => by
      simp only [dump_records, Option.some.injEq] at hr
      subst hr
      intro r hrm
      exact absurd hrm (List.not_mem_nil r)
  | m :: ms, recs, hr => by
      unfold dump_records at hr
      cases htr : to_record m with
      | none => rw [htr] at hr; simp at hr
      | some r0 =>
          rw [htr] at hr
          cases hd : dump_records ms with
          | none => rw [hd] at hr; simp at hr
          | some rs =>
              rw [hd] at hr
              simp only [Option.some.injEq] at hr
              subst hr
              intro r hrm
              rcases List.mem_cons.mp hrm with rfl | hmem
              · refine ⟨m, List.mem_cons_self m ms, ?_⟩
                obtain ⟨o, p⟩ := m
                cases p with
                | str s =>
                    simp only [to_record, Option.some.injEq] at htr
                    rw [← htr]
                | dict kvs => simp [to_record] at htr
                | doc c => simp [to_record] at htr
              · obtain ⟨m2, hm2, ho⟩ := dump_records_origins ms rs hd r hmem
                exact ⟨m2, List.mem_cons_of_mem _ hm2, ho⟩

/-- clear_chat_history always leaves no file behind. -/
theorem clear_chat_history_none (f : Option FileContent) : clear_chat_history f = none := by
  cases f <;> rfl

/-- The coerced history of a turn satisfies the origin invariant whenever
the starting history does. -/
theorem historyOK_append_coerce (h : List Msg) (hs : HistoryOK h) (q ans : String) :
    HistoryOK ((h ++ [Msg.mk "human" (PyVal.str q), Msg.mk "ai" (PyVal.str ans)]).map coerce_msg) := by
  intro m hm
  rcases List.mem_map.mp hm with ⟨m0, hm0, rfl⟩
  have hOK : OriginOK m0.origin := by
    rcases List.mem_append.mp hm0 with hin | hin
    · exact hs m0 hin
    · rcases List.mem_cons.mp hin with rfl | hin2
      · exact Or.inl rfl
      · rcases List.mem_cons.mp hin2 with rfl | hin3
        · exact Or.inr rfl
        · exact absurd hin3 (List.not_mem_nil m0)
  rw [show (coerce_msg m0).origin = m0.origin from coerce_msg_origin m0]
  exact hOK

/-- finish_turn when the dump succeeds. -/
theorem finish_turn_ok (s : St) (q a : String) (recs : List SavedMsg)
    (hd : dump_records ((s.history ++
        [Msg.mk "human" (PyVal.str q), Msg.mk "ai" (PyVal.str a)]).map coerce_msg) = some recs) :
    finish_turn s q a = TurnResult.ok
      ⟨(s.history ++ [Msg.mk "human" (PyVal.str q), Msg.mk "ai" (PyVal.str a)]).map coerce_msg,
        some (FileContent.wellFormed recs)⟩ a := by
  simp only [finish_turn]
  rw [save_chat_history_eq, hd]

/-- finish_turn when the dump fails. -/
theorem finish_turn_err (s : St) (q a : String)
    (hd : dump_records ((s.history ++
        [Msg.mk "human" (PyVal.str q), Msg.mk "ai" (PyVal.str a)]).map coerce_msg) = none) :
    finish_turn s q a = TurnResult.serFailure
      ⟨(s.history ++ [Msg.mk "human" (PyVal.str q), Msg.mk "ai" (PyVal.str a)]).map coerce_msg,
        some FileContent.malformed⟩ := by
  simp only [finish_turn]
  rw [save_chat_history_eq, hd]

/-- Case analysis on one submission: either the chain fails and the outcome
is genFailure on the entry state, or it answers and the outcome is
finish_turn on that answer. -/
theorem on_click_spec (ground general : String → Except GenErr String) (q : String) (s : St) :
    (∃ e, run_chain ground general q s = Except.error e ∧
      on_click_callback ground general q s = TurnResult.genFailure e s) ∨
    (∃ a, run_chain ground general q s = Except.ok a ∧
      on_click_callback ground general q s = finish_turn s q a) := by
  cases hc : run_chain ground general q s with
  | error e => exact Or.inl ⟨e, rfl, by unfold on_click_callback; rw [hc]⟩
  | ok a => exact Or.inr ⟨a, rfl, by unfold on_click_callback; rw [hc]⟩

/-- Inversion of a successful turn: the resulting history is the starting
history with the human and ai messages appended, after the in-place
coercion performed by save_chat_history. -/
theorem on_click_ok_inv (ground general : String → Except GenErr String)
    (q : String) (s s2 : St) (a : String)
    (hok : on_click_callback ground general q s = TurnResult.ok s2 a) :
    s2.history = (s.history ++
      [Msg.mk "human" (PyVal.str q), Msg.mk "ai" (PyVal.str a)]).map coerce_msg := by
  rcases on_click_spec ground general q s with ⟨e, _, heq⟩ | ⟨ans, _, heq⟩
  · rw [heq] at hok
    simp at hok
  · rw [heq] at hok
    cases hd : dump_records ((s.history ++
        [Msg.mk "human" (PyVal.str q), Msg.mk "ai" (PyVal.str ans)]).map coerce_msg) with
    | none =>
        rw [finish_turn_err s q ans hd] at hok
        simp at hok
    | some recs =>
        rw [finish_turn_ok s q ans recs hd] at hok
        simp only [TurnResult.ok.injEq] at hok
        obtain ⟨hst, ha⟩ := hok
        subst ha
        rw [← hst]

/-- C4: saving a history whose payloads are all strings and loading it back
(simulating a restart) returns the same history, message for message, in
the same order; the save also leaves the in-memory history unchanged. -/
theorem save_load_round_trip (h : List Msg) (hs : ∀ m ∈ h, payload_is_str m = true) :
    ∃ recs, save_chat_history h = (h, Except.ok recs) ∧
      load_chat_history (some (FileContent.wellFormed recs)) = Except.ok h := by
  obtain ⟨recs, hr, hmap⟩ := dump_records_of_str h hs
  refine ⟨recs, ?_, ?_⟩
  · rw [save_chat_history_eq, map_coerce_of_str h hs, hr]
  · simp [load_chat_history, hmap]

/-- Witness for C4 at a concrete two-message history. -/
theorem save_load_round_trip_witness :
    (∀ m ∈ ([⟨"human", PyVal.str "hi"⟩, ⟨"ai", PyVal.str "hello"⟩] : List Msg),
        payload_is_str m = true) ∧
    ∃ recs, save_chat_history [⟨"human", PyVal.str "hi"⟩, ⟨"ai", PyVal.str "hello"⟩] =
        ([⟨"human", PyVal.str "hi"⟩, ⟨"ai", PyVal.str "hello"⟩], Except.ok recs) ∧
      load_chat_history (some (FileContent.wellFormed recs)) =
        Except.ok [⟨"human", PyVal.str "hi"⟩, ⟨"ai", PyVal.str "hello"⟩] :=
  ⟨by decide, save_load_round_trip _ (by decide)⟩

/-- C5: when the invoked chain raises, the callback propagates the failure
before any mutation: no answer is produced, the in-memory history is not
advanced, and the persisted file is untouched (the returned state is the
entry state). -/
theorem generation_failure_preserves_state (ground general : String → Except GenErr String)
    (q : String) (s : St) (e : GenErr)
    (hf : run_chain ground general q s = Except.error e) :
    on_click_callback ground general q s = TurnResult.genFailure e s := by
  unfold on_click_callback
  rw [hf]

/-- Witness for C5 with a chain that always fails. -/
theorem generation_failure_witness :
    (run_chain (fun _ => Except.error GenErr.failed) (fun _ => Except.error GenErr.failed)
        "status" ⟨[], none⟩ = Except.error GenErr.failed) ∧
    on_click_callback (fun _ => Except.error GenErr.failed)
        (fun _ => Except.error GenErr.failed) "status" ⟨[], none⟩ =
      TurnResult.genFailure GenErr.failed ⟨[], none⟩ :=
  ⟨rfl, generation_failure_preserves_state _ _ _ _ _ rfl⟩

/-- C6: evaluation at the failing input: a retrieved-document payload is not
a dict instance, so save_chat_history does not coerce it to a string and
json.dump then raises, contradicting the code's stated intent of converting
Document objects before persistence. -/
theorem document_payload_not_coerced :
    save_chat_history [⟨"ai", PyVal.doc "minutes"⟩] =
      ([⟨"ai", PyVal.doc "minutes"⟩], Except.error SerErr.notSerializable) := rfl

/-- C7: two consecutive successful submissions starting from an empty
history yield a history of length four, in strict chronological order,
each turn appending the human message before the assistant (ai) message. -/
theorem two_turns_history (ground general : String → Except GenErr String)
    (q1 q2 a1 a2 : String) (f : Option FileContent) (s1 s2 : St)
    (h1 : on_click_callback ground general q1 ⟨[], f⟩ = TurnResult.ok s1 a1)
    (h2 : on_click_callback ground general q2 s1 = TurnResult.ok s2 a2) :
    s2.history = [Msg.mk "human" (PyVal.str q1), Msg.mk "ai" (PyVal.str a1),
      Msg.mk "human" (PyVal.str q2), Msg.mk "ai" (PyVal.str a2)] ∧
    s2.history.length = 4 := by
  have e1 := on_click_ok_inv ground general q1 ⟨[], f⟩ s1 a1 h1
  have e2 := on_click_ok_inv ground general q2 s1 s2 a2 h2
  simp only [List.nil_append, List.map_cons, List.map_nil,
    show ∀ o t, coerce_msg (Msg.mk o (PyVal.str t)) = Msg.mk o (PyVal.str t)
      from fun _ _ => rfl] at e1
  rw [e1] at e2
  simp only [List.cons_append, List.nil_append, List.map_cons, List.map_nil,
    show ∀ o t, coerce_msg (Msg.mk o (PyVal.str t)) = Msg.mk o (PyVal.str t)
      from fun _ _ => rfl] at e2
  exact ⟨e2, by rw [e2]; rfl⟩

/-- Witness for C7: two concrete submissions with a chain answering "w". -/
theorem two_turns_history_witness :
    (on_click_callback (fun _ => Except.ok "w") (fun _ => Except.ok "w") "a" ⟨[], none⟩ =
      TurnResult.ok ⟨[⟨"human", PyVal.str "a"⟩, ⟨"ai", PyVal.str "w"⟩],
        some (FileContent.wellFormed [⟨"human", "a"⟩, ⟨"ai", "w"⟩])⟩ "w") ∧
    (on_click_callback (fun _ => Except.ok "w") (fun _ => Except.ok "w") "b"
        ⟨[⟨"human", PyVal.str "a"⟩, ⟨"ai", PyVal.str "w"⟩],
          some (FileContent.wellFormed [⟨"human", "a"⟩, ⟨"ai", "w"⟩])⟩ =
      TurnResult.ok ⟨[⟨"human", PyVal.str "a"⟩, ⟨"ai", PyVal.str "w"⟩,
          ⟨"human", PyVal.str "b"⟩, ⟨"ai", PyVal.str "w"⟩],
        some (FileContent.wellFormed
          [⟨"human", "a"⟩, ⟨"ai", "w"⟩, ⟨"human", "b"⟩, ⟨"ai", "w"⟩])⟩ "w") ∧
    ((St.mk [⟨"human", PyVal.str "a"⟩, ⟨"ai", PyVal.str "w"⟩,
        ⟨"human", PyVal.str "b"⟩, ⟨"ai", PyVal.str "w"⟩]
      (some (FileContent.wellFormed
        [⟨"human", "a"⟩, ⟨"ai", "w"⟩, ⟨"human", "b"⟩, ⟨"ai", "w"⟩]))).history =
        [⟨"human", PyVal.str "a"⟩, ⟨"ai", PyVal.str "w"⟩,
          ⟨"human", PyVal.str "b"⟩, ⟨"ai", PyVal.str "w"⟩] ∧
      (St.mk [⟨"human", PyVal.str "a"⟩, ⟨"ai", PyVal.str "w"⟩,
        ⟨"human", PyVal.str "b"⟩, ⟨"ai", PyVal.str "w"⟩]
      (some (FileContent.wellFormed
        [⟨"human", "a"⟩, ⟨"ai", "w"⟩, ⟨"human", "b"⟩, ⟨"ai", "w"⟩]))).history.length = 4) :=
  ⟨rfl, rfl,
    two_turns_history (fun _ => Except.ok "w") (fun _ => Except.ok "w") "a" "b" "w" "w" none
      ⟨[⟨"human", PyVal.str "a"⟩, ⟨"ai", PyVal.str "w"⟩],
        some (FileContent.wellFormed [⟨"human", "a"⟩, ⟨"ai", "w"⟩])⟩
      ⟨[⟨"human", PyVal.str "a"⟩, ⟨"ai", PyVal.str "w"⟩,
          ⟨"human", PyVal.str "b"⟩, ⟨"ai", PyVal.str "w"⟩],
        some (FileContent.wellFormed
          [⟨"human", "a"⟩, ⟨"ai", "w"⟩, ⟨"human", "b"⟩, ⟨"ai", "w"⟩])⟩
      rfl rfl⟩

/-- C9: every operation preserves the origin enumeration invariant: New Chat
leaves it trivially true, rehydration from an invariant-satisfying file
yields an invariant-satisfying history, and a turn in any outcome leaves a
state whose messages all carry origin human or ai. -/
theorem origin_invariant (s : St) (ground general : String → Except GenErr String)
    (q : String) (hs : StOK s) :
    StOK (new_chat s) ∧
    (∀ s2, init_session_state s.file = Except.ok s2 → HistoryOK s2.history) ∧
    TurnOK (on_click_callback ground general q s) := by
  refine ⟨⟨fun m hm => absurd hm (List.not_mem_nil m), ?_⟩, ?_, ?_⟩
  · rw [show (new_chat s).file = clear_chat_history s.file from rfl,
      clear_chat_history_none s.file]
    trivial
  · intro s2 hinit
    unfold init_session_state at hinit
    cases hf : s.file with
    | none =>
        rw [hf] at hinit
        simp only [load_chat_history, Except.map, Except.ok.injEq] at hinit
        subst hinit
        exact fun m hm => absurd hm (List.not_mem_nil m)
    | some fc =>
        cases fc with
        | malformed => rw [hf] at hinit; simp [load_chat_history, Except.map] at hinit
        | wellFormed recs =>
            rw [hf] at hinit
            simp only [load_chat_history, Except.map, Except.ok.injEq] at hinit
            subst hinit
            intro m hm
            rcases List.mem_map.mp hm with ⟨r, hr, rfl⟩
            have h2 := hs.2
            rw [hf] at h2
            exact h2 r hr
  · rcases on_click_spec ground general q s with ⟨e, _, heq⟩ | ⟨ans, _, heq⟩
    · rw [heq]
      exact hs
    · rw [heq]
      cases hd : dump_records ((s.history ++
          [Msg.mk "human" (PyVal.str q), Msg.mk "ai" (PyVal.str ans)]).map coerce_msg) with
      | none =>
          rw [finish_turn_err s q ans hd]
          exact ⟨historyOK_append_coerce s.history hs.1 q ans, trivial⟩
      | some recs =>
          rw [finish_turn_ok s q ans recs hd]
          refine ⟨historyOK_append_coerce s.history hs.1 q ans, ?_⟩
          intro r hr
          obtain ⟨m, hm, ho⟩ := dump_records_origins _ _ hd r hr
          rw [ho]
          exact historyOK_append_coerce s.history hs.1 q ans m hm

/-- Witness for C9 at the empty session state. -/
theorem origin_invariant_witness :
    StOK ⟨[], none⟩ ∧
    (StOK (new_chat ⟨[], none⟩) ∧
     (∀ s2, init_session_state (St.mk [] none).file = Except.ok s2 → HistoryOK s2.history) ∧
     TurnOK (on_click_callback (fun _ => Except.ok "w") (fun _ => Except.ok "w")
        "hello" ⟨[], none⟩)) :=
  ⟨⟨fun m hm => absurd hm (List.not_mem_nil m), trivial⟩,
    origin_invariant ⟨[], none⟩ _ _ "hello"
      ⟨fun m hm => absurd hm (List.not_mem_nil m), trivial⟩⟩

/-- C10: save_chat_history returns the caller's history with every dict
payload coerced in place: afterwards no payload is a dict instance, and on
a history of string or dict payloads every payload is a string, while
messages already holding string payloads are left unchanged. -/
theorem save_coerces_in_place (h : List Msg)
    (hp : ∀ m ∈ h, payload_is_str m = true ∨ payload_is_dict m = true) :
    (save_chat_history h).1 = h.map coerce_msg ∧
    (∀ m ∈ (save_chat_history h).1, payload_is_dict m = false) ∧
    (∀ m ∈ (save_chat_history h).1, payload_is_str m = true) ∧
    (∀ m ∈ h, payload_is_str m = true → coerce_msg m = m) := by
  have hfst : (save_chat_history h).1 = h.map coerce_msg := by
    rw [save_chat_history_eq]
  refine ⟨hfst, ?_, ?_, fun m _ hstr => coerce_msg_of_str m hstr⟩
  · rw [hfst]
    intro m hm
    rcases List.mem_map.mp hm with ⟨m0, _, rfl⟩
    exact coerce_msg_not_dict m0
  · rw [hfst]
    intro m hm
    rcases List.mem_map.mp hm with ⟨m0, hm0, rfl⟩
    rcases hp m0 hm0 with hstr | hdict
    · rw [coerce_msg_of_str m0 hstr]
      exact hstr
    · obtain ⟨o, p⟩ := m0
      cases p with
      | str s => rfl
      | dict kvs => rfl
      | doc c => simp [payload_is_dict] at hdict

/-- Witness for C10 at a history holding one string and one dict payload. -/
theorem save_coerces_in_place_witness :
    (∀ m ∈ ([⟨"human", PyVal.str "hi"⟩, ⟨"ai", PyVal.dict [("page_content", "x")]⟩] : List Msg),
        payload_is_str m = true ∨ payload_is_dict m = true) ∧
    ((save_chat_history [⟨"human", PyVal.str "hi"⟩,
        ⟨"ai", PyVal.dict [("page_content", "x")]⟩]).1 =
      ([⟨"human", PyVal.str "hi"⟩, ⟨"ai", PyVal.dict [("page_content", "x")]⟩] :
        List Msg).map coerce_msg ∧
     (∀ m ∈ (save_chat_history [⟨"human", PyVal.str "hi"⟩,
        ⟨"ai", PyVal.dict [("page_content", "x")]⟩]).1, payload_is_dict m = false) ∧
     (∀ m ∈ (save_chat_history [⟨"human", PyVal.str "hi"⟩,
        ⟨"ai", PyVal.dict [("page_content", "x")]⟩]).1, payload_is_str m = true) ∧
     (∀ m ∈ ([⟨"human", PyVal.str "hi"⟩, ⟨"ai", PyVal.dict [("page_content", "x")]⟩] : List Msg),
        payload_is_str m = true → coerce_msg m = m)) :=
  ⟨by decide, save_coerces_in_place _ (by decide)⟩

/-- C8: the New Chat handler is idempotent and total: run twice from any
starting state (file present or absent) it cannot fail, and it leaves the
in-memory history empty and the persisted file removed. -/
theorem clear_twice_idempotent (s : St) :
    new_chat (new_chat s) = new_chat s ∧
    (new_chat s).history = [] ∧ (new_chat s).file = none := by
  cases s with
  | mk h f => cases f <;> exact ⟨rfl, rfl, rfl⟩

end Ruby
